import Mathlib

/-!
Verification of the configlite repository layer (config.go) against its
specification.  The database state visible to the repository is embedded
shallowly: the two tables of the schema become lists, and each repository
method becomes a Lean function executing the semantics of the single SQL
statement it issues.
-/

namespace Configlite

/-- A row of the `configurations` table:
`configurations(application_name, configuration_name, configuration_value)`. -/
structure Row where
  app : String
  name : String
  value : String
deriving DecidableEq, Repr

/-- The persisted database state seen by the repository: the `applications`
table (a list of names) and the `configurations` table (a list of rows).
Row order stands for the engine's arbitrary scan order. -/
structure DB where
  applications : List String
  configurations : List Row
deriving DecidableEq, Repr

/-- The error taxonomy of the data layer, as produced by config.go:
`notFound` is `ErrConfigNotFound` wrapped with both identifiers
(GetConfig, config.go line 124); `constraintViolation` is the sqlite
UNIQUE-constraint error surfaced by a bare INSERT; `noRowsAffected` is the
`unexpected number of affected rows: %d` error of DeleteConfig
(config.go line 169). -/
inductive DBError where
  | notFound (app config : String)
  | constraintViolation (table : String)
  | noRowsAffected (numRows : Nat)
deriving DecidableEq, Repr

/-- Schema invariant of the `configurations` table, modelled from the spec:
the migrations (not part of the repository sources given) create
`UNIQUE(application_name, configuration_name)`, so no two rows share the
(application, configuration) key. -/
def WFConfigs (db : DB) : Prop :=
  (db.configurations.map (fun r => (r.app, r.name))).Nodup

/-- Schema invariant of the `applications` table, modelled from the spec:
`applications(name TEXT UNIQUE PRIMARY KEY)`, so names are pairwise
distinct. -/
def WFApps (db : DB) : Prop :=
  db.applications.Nodup

instance (db : DB) : Decidable (WFConfigs db) := by
  unfold WFConfigs; infer_instance

instance (db : DB) : Decidable (WFApps db) := by
  unfold WFApps; infer_instance

/-- `GetApps` (config.go lines 49-69): `SELECT name FROM applications`,
scanned into a list. -/
def getApps (db : DB) : List String :=
  db.applications

/-- One step of the row loop of `GetConfigs` (config.go line 87):
`configs[name] = value` on a Go map, embedded as an association list whose
insert overwrites an existing binding and appends a fresh one. -/
def mapInsert (m : List (String × String)) (k v : String) :
    List (String × String) :=
  if m.any (fun p => p.1 == k) then
    m.map (fun p => if p.1 == k then (k, v) else p)
  else
    m ++ [(k, v)]

/-- `GetConfigs` (config.go lines 71-94): selects the rows of the named
application and folds them into a map. -/
def getConfigs (db : DB) (applicationName : String) :
    List (String × String) :=
  db.configurations.foldl
    (fun m r =>
      if r.app == applicationName then mapInsert m r.name r.value else m)
    []

/-- The exact-key WHERE clause
`application_name = ? AND configuration_name = ?` shared by GetConfig,
the conflict target of UpsertConfig and the exact branch of DeleteConfig. -/
def keyMatch (applicationName configName : String) (r : Row) : Bool :=
  r.app == applicationName && r.name == configName

/-- `GetConfig` (config.go lines 96-125): selects the value for the exact
(application, configuration) pair, returns the first row scanned, and
fails with the wrapped `ErrConfigNotFound` carrying both identifiers when
no row matches. -/
def getConfig (db : DB) (applicationName configName : String) :
    Except DBError String :=
  match db.configurations.find? (keyMatch applicationName configName) with
  | some r => .ok r.value
  | none => .error (.notFound applicationName configName)

/-- `MustRegisterApplication` (config.go lines 127-130): a bare
`INSERT INTO applications (name) VALUES (?)`.  The duplicate-name failure
is modelled from the spec: the schema's UNIQUE PRIMARY KEY on `name`
(from the migrations, absent from the given sources) makes the insert
fail on an existing name. -/
def mustRegisterApplication (db : DB) (applicationName : String) :
    Except DBError DB :=
  if db.applications.contains applicationName then
    .error (.constraintViolation "applications")
  else
    .ok { db with applications := db.applications ++ [applicationName] }

/-- `RegisterApplication` (config.go lines 132-136):
`INSERT INTO applications (name) VALUES (?) ON CONFLICT DO NOTHING`. -/
def registerApplication (db : DB) (applicationName : String) : DB :=
  if db.applications.contains applicationName then db
  else { db with applications := db.applications ++ [applicationName] }

/-- The row transformation of sqlite's `DO UPDATE SET configuration_value
= ?3`: the conflicting row gets the new value, every other row is kept. -/
def upsertRow (applicationName configName configValue : String) (r : Row) :
    Row :=
  if keyMatch applicationName configName r then { r with value := configValue }
  else r

/-- `UpsertConfig` (config.go lines 138-148):
`INSERT ... ON CONFLICT (application_name, configuration_name) DO UPDATE
SET configuration_value = ?3`.  On conflict sqlite updates the conflicting
row in place; otherwise the new row is inserted. -/
def upsertConfig (db : DB) (applicationName configName configValue : String) :
    DB :=
  if db.configurations.any (keyMatch applicationName configName) then
    { db with
        configurations := db.configurations.map
          (upsertRow applicationName configName configValue) }
  else
    { db with
        configurations :=
          db.configurations ++ [⟨applicationName, configName, configValue⟩] }

/-- Lower-case an ASCII letter; sqlite's default LIKE is case-insensitive
on the ASCII range. -/
def asciiLower (c : Char) : Char :=
  if 'A' ≤ c && c ≤ 'Z' then Char.ofNat (c.toNat + 32) else c

/-- Character comparison under sqlite LIKE (ASCII case-insensitive). -/
def likeCharEq (p c : Char) : Bool :=
  asciiLower p = asciiLower c

/-- sqlite LIKE matching of a pattern (first argument) against a string:
`%` matches any sequence, `_` matches any single character, any other
character matches itself up to ASCII case. -/
def likeMatch : List Char → List Char → Bool
  | [], [] => true
  | [], _ :: _ => false
  | '%' :: ps, [] => likeMatch ps []
  | '%' :: ps, c :: s => likeMatch ps (c :: s) || likeMatch ('%' :: ps) s
  | '_' :: _, [] => false
  | '_' :: ps, _ :: s => likeMatch ps s
  | _ :: _, [] => false
  | p :: ps, c :: s => likeCharEq p c && likeMatch ps s
termination_by p s => p.length + s.length

/-- `configuration_name LIKE ?` with the given pattern. -/
def sqliteLike (pattern str : String) : Bool :=
  likeMatch pattern.toList str.toList

/-- The WHERE clause of `DeleteConfig` (config.go lines 151-160): exact
equality on the configuration name, or LIKE matching when `likePattern`
is set; the application name is always matched exactly. -/
def rowMatches (likePattern : Bool) (applicationName configName : String)
    (r : Row) : Bool :=
  r.app == applicationName &&
    (if likePattern then sqliteLike configName r.name
     else r.name == configName)

/-- `DeleteConfig` (config.go lines 150-172): executes the DELETE, then
checks `RowsAffected`; zero affected rows yields the
`unexpected number of affected rows: 0` error (and, zero rows having
matched, the table is unchanged). -/
def deleteConfig (db : DB) (applicationName configName : String)
    (likePattern : Bool) : Except DBError DB :=
  let affected :=
    db.configurations.countP (rowMatches likePattern applicationName configName)
  if affected = 0 then
    .error (.noRowsAffected 0)
  else
    .ok { db with
            configurations := db.configurations.filter
              (fun r => !(rowMatches likePattern applicationName configName r)) }

/-- Slash-separated component decomposition of a path, the splitting
underlying Go `path.Clean` (empty components stand for repeated or
leading/trailing slashes). -/
def splitSlash : List Char → List (List Char)
  | [] => [[]]
  | c :: rest =>
    let comps := splitSlash rest
    if c = '/' then [] :: comps
    else
      match comps with
      | [] => [[c]]
      | comp :: more => (c :: comp) :: more

/-- Go `path.Clean` component processing: empty and `.` components are
dropped, `..` pops a retained component, is dropped at the root of a
rooted path, and is kept in a relative path with nothing left to pop.
`acc` holds the retained components in reverse order. -/
def cleanComponents (rooted : Bool) : List String → List String → List String
  | acc, [] => acc
  | acc, c :: rest =>
    if c = "" || c = "." then cleanComponents rooted acc rest
    else if c = ".." then
      match acc with
      | [] =>
        if rooted then cleanComponents rooted [] rest
        else cleanComponents rooted [".."] rest
      | a :: tail =>
        if a = ".." then cleanComponents rooted (".." :: acc) rest
        else cleanComponents rooted tail rest
    else cleanComponents rooted (c :: acc) rest

/-- Join path components with slashes. -/
def joinSlash : List String → String
  | [] => ""
  | [comp] => comp
  | comp :: rest => comp ++ "/" ++ joinSlash rest

/-- Go `path.Clean`: lexical cleaning of a slash-separated path. -/
def goPathClean (p : String) : String :=
  if p = "" then "."
  else
    let cs := p.toList
    let rooted :=
      match cs with
      | '/' :: _ => true
      | _ => false
    let comps := (splitSlash cs).map String.mk
    let body := joinSlash (cleanComponents rooted [] comps).reverse
    if rooted then "/" ++ body
    else if body = "" then "." else body

/-- Go `path.Join` of two elements: empty elements are dropped, the rest
joined with `/` and cleaned; all-empty input yields the empty string. -/
def goPathJoin (a b : String) : String :=
  if a = "" && b = "" then ""
  else if a = "" then goPathClean b
  else if b = "" then goPathClean a
  else goPathClean (a ++ "/" ++ b)

/-- The outcome of `os.UserHomeDir`: the home directory, or a failure. -/
inductive HomeDirResult where
  | ok (home : String)
  | err (msg : String)
deriving DecidableEq, Repr

/-- `DefaultConfigurationFile` (config.go lines 22-29), parameterised by
the outcome of `os.UserHomeDir`: on failure the literal "/.config.db" is
returned, otherwise `path.Join(home, ".config.db")`. -/
def defaultConfigurationFile (homeDir : HomeDirResult) : String :=
  match homeDir with
  | .err _ => "/.config.db"
  | .ok home => goPathJoin home ".config.db"

lemma keyMatch_upsertRow (A K V : String) (r : Row) :
    keyMatch A K (upsertRow A K V r) = keyMatch A K r := by
  unfold upsertRow
  split <;> rfl

lemma upsertRow_of_keyMatch (A K V : String) (r : Row)
    (h : keyMatch A K r = true) :
    upsertRow A K V r = { r with value := V } := by
  unfold upsertRow
  rw [if_pos h]

lemma keyMatch_self (A K V : String) :
    keyMatch A K (Row.mk A K V) = true := by
  simp [keyMatch]

lemma getConfig_upsertConfig_self (db : DB) (A K V : String) :
    getConfig (upsertConfig db A K V) A K = .ok V := by
  unfold getConfig upsertConfig
  cases h : db.configurations.any (keyMatch A K) with
  | true =>
    rw [if_pos rfl]
    have hcomp : keyMatch A K ∘ upsertRow A K V = keyMatch A K :=
      funext fun r => keyMatch_upsertRow A K V r
    simp only [List.find?_map, hcomp]
    obtain ⟨r0, hr0m, hr0⟩ := List.any_eq_true.mp h
    cases hf : db.configurations.find? (keyMatch A K) with
    | none =>
      rw [List.find?_eq_none] at hf
      exact absurd hr0 (hf r0 hr0m)
    | some r1 =>
      have hk1 : keyMatch A K r1 = true := List.find?_some hf
      simp [upsertRow_of_keyMatch A K V r1 hk1]
  | false =>
    rw [if_neg (by simp)]
    have hnone : db.configurations.find? (keyMatch A K) = none := by
      rw [List.find?_eq_none]
      intro x hx
      exact List.any_eq_false.mp h x hx
    simp [List.find?_append, hnone, List.find?_cons, keyMatch_self]

lemma upsertConfig_applications (db : DB) (A K V : String) :
    (upsertConfig db A K V).applications = db.applications := by
  unfold upsertConfig
  split <;> rfl

/-- Claim C9: UpsertConfig performs no foreign-key check: it succeeds for an
application that was never registered, the entry is then retrievable via
GetConfig, and the application still does not appear in the application
listing. -/
theorem upsertConfig_without_registration (db : DB) (A K V : String)
    (h : A ∉ db.applications) :
    getConfig (upsertConfig db A K V) A K = .ok V ∧
      A ∉ getApps (upsertConfig db A K V) := by
  refine ⟨getConfig_upsertConfig_self db A K V, ?_⟩
  unfold getApps
  rw [upsertConfig_applications]
  exact h

/-- Witness for C9 at a concrete database. -/
theorem upsertConfig_without_registration_witness :
    "app" ∉ (DB.mk ["other"] []).applications ∧
      (getConfig (upsertConfig (DB.mk ["other"] []) "app" "key" "v")
          "app" "key" = .ok "v" ∧
        "app" ∉ getApps (upsertConfig (DB.mk ["other"] []) "app" "key" "v")) :=
  ⟨by decide,
    upsertConfig_without_registration (DB.mk ["other"] []) "app" "key" "v"
      (by decide)⟩

/-- Claim C2: DeleteConfig fails with the NoRowsAffected-kind error exactly
when the delete statement affected zero rows, and that is the only error it
produces; it is never a silent no-op on an empty match. -/
theorem deleteConfig_noRowsAffected_iff (db : DB) (A K : String) (p : Bool) :
    (deleteConfig db A K p = .error (.noRowsAffected 0) ↔
        db.configurations.countP (rowMatches p A K) = 0) ∧
      ∀ e, deleteConfig db A K p = .error e → e = .noRowsAffected 0 := by
  by_cases h : db.configurations.countP (rowMatches p A K) = 0 <;>
    simp [deleteConfig, h]

/-- Witness for C2 at a concrete database: deleting from an empty table
errors with NoRowsAffected. -/
theorem deleteConfig_noRowsAffected_iff_witness :
    DBError.noRowsAffected 0 = DBError.noRowsAffected 0 ∧
      (deleteConfig (DB.mk [] []) "a" "k" false =
          .error (.noRowsAffected 0) ↔
        (DB.mk [] []).configurations.countP (rowMatches false "a" "k") = 0) :=
  ⟨(deleteConfig_noRowsAffected_iff (DB.mk [] []) "a" "k" false).2
      (.noRowsAffected 0) rfl,
    (deleteConfig_noRowsAffected_iff (DB.mk [] []) "a" "k" false).1⟩

/-- Claim C8: the strict registration variant fails with a
constraint-violation error on a duplicate name, where RegisterApplication
succeeds without modifying the database. -/
theorem mustRegisterApplication_duplicate (db : DB) (A : String)
    (h : A ∈ db.applications) :
    mustRegisterApplication db A =
        .error (.constraintViolation "applications") ∧
      registerApplication db A = db := by
  unfold mustRegisterApplication registerApplication
  simp [h]

/-- Witness for C8 at a concrete database. -/
theorem mustRegisterApplication_duplicate_witness :
    "svc" ∈ (DB.mk ["svc"] []).applications ∧
      (mustRegisterApplication (DB.mk ["svc"] []) "svc" =
          .error (.constraintViolation "applications") ∧
        registerApplication (DB.mk ["svc"] []) "svc" = DB.mk ["svc"] []) :=
  ⟨by decide, mustRegisterApplication_duplicate (DB.mk ["svc"] []) "svc"
      (by decide)⟩

/-- Claim C10: DefaultConfigurationFile is total (it never returns an
error): on home-directory failure it falls back to the fixed path
"/.config.db", and on success it returns the home directory joined with
".config.db" under Go path.Join semantics. -/
theorem defaultConfigurationFile_spec :
    (∀ msg, defaultConfigurationFile (.err msg) = "/.config.db") ∧
      (∀ home, defaultConfigurationFile (.ok home) =
        goPathJoin home ".config.db") ∧
      defaultConfigurationFile (.ok "/home/user") = "/home/user/.config.db" := by
  refine ⟨fun _ => rfl, fun _ => rfl, ?_⟩
  decide

lemma find?_filter_eq_of_imp (l : List Row) (p q : Row → Bool)
    (h : ∀ r, p r = true → q r = true) :
    (l.filter q).find? p = l.find? p := by
  induction l with
  | nil => rfl
  | cons r rest ih =>
    by_cases hq : q r = true
    · rw [List.filter_cons_of_pos hq]
      cases hp : p r with
      | true => simp [List.find?_cons, hp]
      | false => simp [List.find?_cons, hp, ih]
    · have hp : p r = false := by
        cases hpc : p r
        · rfl
        · exact absurd (h r hpc) hq
      rw [List.filter_cons_of_neg hq]
      simp [List.find?_cons, hp, ih]

lemma find?_filter_none (l : List Row) (p q : Row → Bool)
    (h : ∀ r, p r = true → q r = false) :
    (l.filter q).find? p = none := by
  rw [List.find?_eq_none]
  intro x hx hp
  rw [List.mem_filter] at hx
  rw [h x hp] at hx
  exact Bool.false_ne_true hx.2

lemma length_filter_not_add (p : Row → Bool) (l : List Row) :
    (l.filter (fun r => !(p r))).length + l.countP p = l.length := by
  induction l with
  | nil => rfl
  | cons r rest ih =>
    rw [List.countP_cons]
    cases h : p r with
    | true =>
      rw [List.filter_cons_of_neg (by simp [h])]
      simp only [h, List.length_cons, if_pos]
      omega
    | false =>
      rw [List.filter_cons_of_pos (by simp [h])]
      simp [h]
      omega

lemma keyMatch_iff (A K : String) (r : Row) :
    keyMatch A K r = true ↔ r.app = A ∧ r.name = K := by
  simp [keyMatch]

/-- Claim C4: GetConfig returns the stored value when a row for the pair
exists, and fails with NotFound carrying both identifiers when no row
matches. -/
theorem getConfig_found_or_notFound (db : DB) (A K : String) :
    ((∃ r ∈ db.configurations, r.app = A ∧ r.name = K) →
        ∃ r ∈ db.configurations,
          r.app = A ∧ r.name = K ∧ getConfig db A K = .ok r.value) ∧
      ((∀ r ∈ db.configurations, ¬(r.app = A ∧ r.name = K)) →
        getConfig db A K = .error (.notFound A K)) := by
  constructor
  · rintro ⟨r, hr, hA, hK⟩
    have hsome : (db.configurations.find? (keyMatch A K)).isSome := by
      rw [List.find?_isSome]
      exact ⟨r, hr, (keyMatch_iff A K r).mpr ⟨hA, hK⟩⟩
    cases hf : db.configurations.find? (keyMatch A K) with
    | none => rw [hf] at hsome; simp at hsome
    | some r1 =>
      have hmem := List.mem_of_find?_eq_some hf
      have hk1 := (keyMatch_iff A K r1).mp (List.find?_some hf)
      refine ⟨r1, hmem, hk1.1, hk1.2, ?_⟩
      unfold getConfig
      rw [hf]
  · intro hnone
    have hf : db.configurations.find? (keyMatch A K) = none := by
      rw [List.find?_eq_none]
      intro x hx hk
      exact hnone x hx ((keyMatch_iff A K x).mp hk)
    unfold getConfig
    rw [hf]

/-- Witness for C4: a present pair is returned, an absent pair yields
NotFound with both identifiers. -/
theorem getConfig_found_or_notFound_witness :
    (∃ r ∈ (DB.mk [] [Row.mk "a" "k" "v"]).configurations,
        r.app = "a" ∧ r.name = "k" ∧
          getConfig (DB.mk [] [Row.mk "a" "k" "v"]) "a" "k" = .ok r.value) ∧
      getConfig (DB.mk [] [Row.mk "a" "k" "v"]) "b" "x" =
        .error (.notFound "b" "x") :=
  ⟨(getConfig_found_or_notFound (DB.mk [] [Row.mk "a" "k" "v"]) "a" "k").1
      ⟨Row.mk "a" "k" "v", by decide, rfl, rfl⟩,
    (getConfig_found_or_notFound (DB.mk [] [Row.mk "a" "k" "v"]) "b" "x").2
      (by decide)⟩

/-- Claim C3: a successful pattern delete removes exactly the rows of the
given application whose name matches the LIKE pattern; non-matching keys
of that application and every other application answer GetConfig exactly
as before, and matching keys are gone. -/
theorem deleteConfig_pattern_frame (db : DB) (A P : String) (db2 : DB)
    (h : deleteConfig db A P true = .ok db2) :
    db2.configurations =
        db.configurations.filter
          (fun r => !(r.app == A && sqliteLike P r.name)) ∧
      db2.applications = db.applications ∧
      (∀ L, sqliteLike P L = true →
        getConfig db2 A L = .error (.notFound A L)) ∧
      (∀ B L, ¬(B = A ∧ sqliteLike P L = true) →
        getConfig db2 B L = getConfig db B L) := by
  have hrm : ∀ r, rowMatches true A P r = (r.app == A && sqliteLike P r.name) := by
    intro r
    simp [rowMatches]
  unfold deleteConfig at h
  by_cases hz : db.configurations.countP (rowMatches true A P) = 0
  · rw [if_pos hz] at h
    exact absurd h (by simp)
  · rw [if_neg hz] at h
    have hdb2 : db2 = { db with
        configurations :=
          db.configurations.filter (fun r => !(rowMatches true A P r)) } :=
      (Except.ok.inj h).symm
    have hcfg : db2.configurations =
        db.configurations.filter
          (fun r => !(r.app == A && sqliteLike P r.name)) := by
      rw [hdb2]
      exact List.filter_congr (fun r _ => by rw [hrm r])
    refine ⟨hcfg, by rw [hdb2], ?_, ?_⟩
    · intro L hL
      unfold getConfig
      rw [hcfg, find?_filter_none]
      intro r hk
      obtain ⟨hA, hK⟩ := (keyMatch_iff A L r).mp hk
      simp [hA, hK, hL]
    · intro B L hBL
      unfold getConfig
      rw [hcfg, find?_filter_eq_of_imp]
      intro r hk
      obtain ⟨hA, hK⟩ := (keyMatch_iff B L r).mp hk
      by_cases hBA : B = A
      · have hnl : sqliteLike P L ≠ true := fun hc => hBL ⟨hBA, hc⟩
        simp [hA, hK, hBA, Bool.eq_false_iff.mpr hnl]
      · simp [hA, hBA]

/-- Sample database for the pattern-delete witness. -/
def dbC3 : DB :=
  DB.mk ["a", "b"]
    [Row.mk "a" "p1" "v1", Row.mk "a" "q" "v2", Row.mk "b" "p1" "v3"]

/-- The pattern delete of pattern "p%" for application "a" on `dbC3`. -/
def dbC3del : DB :=
  DB.mk ["a", "b"] [Row.mk "a" "q" "v2", Row.mk "b" "p1" "v3"]

/-- Witness for C3 on a concrete database: "a"/"p1" is removed, "a"/"q"
and "b"/"p1" are untouched. -/
lemma dbC3_delete_eq : deleteConfig dbC3 "a" "p%" true = .ok dbC3del := by
  simp [deleteConfig, dbC3, dbC3del, rowMatches, sqliteLike, likeMatch,
    likeCharEq, asciiLower, keyMatch]

theorem deleteConfig_pattern_frame_witness :
    deleteConfig dbC3 "a" "p%" true = .ok dbC3del ∧
      getConfig dbC3del "a" "p1" = .error (.notFound "a" "p1") ∧
      getConfig dbC3del "a" "q" = getConfig dbC3 "a" "q" ∧
      getConfig dbC3del "b" "p1" = getConfig dbC3 "b" "p1" :=
  ⟨dbC3_delete_eq,
    (deleteConfig_pattern_frame dbC3 "a" "p%" dbC3del dbC3_delete_eq).2.2.1
      "p1" (by simp [sqliteLike, likeMatch, likeCharEq, asciiLower]),
    (deleteConfig_pattern_frame dbC3 "a" "p%" dbC3del dbC3_delete_eq).2.2.2
      "a" "q" (by simp [sqliteLike, likeMatch, likeCharEq, asciiLower]),
    (deleteConfig_pattern_frame dbC3 "a" "p%" dbC3del dbC3_delete_eq).2.2.2
      "b" "p1" (by simp)⟩

lemma rowMatches_false_eq (A K : String) (r : Row) :
    rowMatches false A K r = keyMatch A K r := by
  simp [rowMatches, keyMatch]

lemma countP_keyMatch_le_one_aux (A K : String) (l : List Row)
    (h : (l.map (fun r => (r.app, r.name))).Nodup) :
    l.countP (keyMatch A K) ≤ 1 := by
  induction l with
  | nil => simp
  | cons r rest ih =>
    rw [List.map_cons, List.nodup_cons] at h
    rw [List.countP_cons]
    by_cases hk : keyMatch A K r = true
    · obtain ⟨hA, hK⟩ := (keyMatch_iff A K r).mp hk
      have hzero : rest.countP (keyMatch A K) = 0 := by
        rw [List.countP_eq_zero]
        intro r2 hr2 hk2
        obtain ⟨hA2, hK2⟩ := (keyMatch_iff A K r2).mp hk2
        exact h.1 (List.mem_map.mpr
          ⟨r2, hr2, by rw [hA, hK, hA2, hK2]⟩)
      simp [hk, hzero]
    · have := ih h.2
      simp only [hk, if_neg]
      simpa using this

lemma countP_keyMatch_le_one (db : DB) (A K : String) (hwf : WFConfigs db) :
    db.configurations.countP (keyMatch A K) ≤ 1 :=
  countP_keyMatch_le_one_aux A K db.configurations hwf

/-- Claim C6: when an entry for the exact pair exists, DeleteConfig
succeeds, removes exactly that row (one row fewer, and precisely the
non-matching rows remain), and a subsequent GetConfig fails with
NotFound. -/
theorem deleteConfig_exact_spec (db : DB) (A K : String)
    (hwf : WFConfigs db)
    (hex : ∃ r ∈ db.configurations, r.app = A ∧ r.name = K) :
    ∃ db2, deleteConfig db A K false = .ok db2 ∧
      db2.configurations =
        db.configurations.filter (fun r => !(keyMatch A K r)) ∧
      db2.configurations.length + 1 = db.configurations.length ∧
      getConfig db2 A K = .error (.notFound A K) := by
  have hcnt : db.configurations.countP (rowMatches false A K) =
      db.configurations.countP (keyMatch A K) :=
    List.countP_congr fun r _ => by rw [rowMatches_false_eq]
  have hpos : 0 < db.configurations.countP (keyMatch A K) := by
    rw [List.countP_pos_iff]
    obtain ⟨r, hr, hA, hKn⟩ := hex
    exact ⟨r, hr, (keyMatch_iff A K r).mpr ⟨hA, hKn⟩⟩
  have hone : db.configurations.countP (keyMatch A K) = 1 :=
    Nat.le_antisymm (countP_keyMatch_le_one db A K hwf) hpos
  refine ⟨{ db with
      configurations :=
        db.configurations.filter (fun r => !(rowMatches false A K r)) },
    ?_, ?_, ?_, ?_⟩
  · unfold deleteConfig
    rw [if_neg (by omega)]
  · exact List.filter_congr fun r _ => by rw [rowMatches_false_eq]
  · have hlen := length_filter_not_add (rowMatches false A K)
      db.configurations
    simp only []
    omega
  · unfold getConfig
    rw [find?_filter_none]
    intro r hk
    rw [rowMatches_false_eq, hk]
    rfl

/-- Witness for C6: deleting the only entry of "svc" succeeds and the
entry is gone. -/
theorem deleteConfig_exact_spec_witness :
    WFConfigs (DB.mk ["svc"] [Row.mk "svc" "timeout" "30"]) ∧
      (∃ r ∈ (DB.mk ["svc"] [Row.mk "svc" "timeout" "30"]).configurations,
        r.app = "svc" ∧ r.name = "timeout") ∧
      ∃ db2,
        deleteConfig (DB.mk ["svc"] [Row.mk "svc" "timeout" "30"]) "svc"
            "timeout" false = .ok db2 ∧
          db2.configurations =
            (DB.mk ["svc"] [Row.mk "svc" "timeout" "30"]).configurations.filter
              (fun r => !(keyMatch "svc" "timeout" r)) ∧
          db2.configurations.length + 1 =
            (DB.mk ["svc"]
              [Row.mk "svc" "timeout" "30"]).configurations.length ∧
          getConfig db2 "svc" "timeout" = .error (.notFound "svc" "timeout") :=
  ⟨by decide, ⟨Row.mk "svc" "timeout" "30", by decide, rfl, rfl⟩,
    deleteConfig_exact_spec (DB.mk ["svc"] [Row.mk "svc" "timeout" "30"])
      "svc" "timeout" (by decide)
      ⟨Row.mk "svc" "timeout" "30", by decide, rfl, rfl⟩⟩

lemma registerApplication_of_mem (db : DB) (A : String)
    (h : A ∈ db.applications) : registerApplication db A = db := by
  unfold registerApplication
  rw [if_pos (by simpa [List.elem_iff] using h)]

lemma wfApps_registerApplication (db : DB) (A : String) (hwf : WFApps db) :
    WFApps (registerApplication db A) := by
  unfold registerApplication
  by_cases h : A ∈ db.applications
  · rw [if_pos (by simpa [List.elem_iff] using h)]
    exact hwf
  · rw [if_neg (by simpa [List.elem_iff] using h)]
    exact hwf.append (List.nodup_singleton A)
      (List.disjoint_singleton.mpr h)

lemma count_registerApplication (db : DB) (A : String) (hwf : WFApps db) :
    (registerApplication db A).applications.count A = 1 := by
  unfold registerApplication
  by_cases h : A ∈ db.applications
  · rw [if_pos (by simpa [List.elem_iff] using h)]
    have h1 := List.nodup_iff_count_le_one.mp hwf A
    have h2 := List.count_pos_iff.mpr h
    omega
  · rw [if_neg (by simpa [List.elem_iff] using h)]
    simp [List.count_append, List.count_eq_zero.mpr h]

/-- `n` successive calls of RegisterApplication for the same name. -/
def regIter (db : DB) (A : String) : Nat → DB
  | 0 => db
  | n + 1 => registerApplication (regIter db A n) A

lemma wfApps_regIter (db : DB) (A : String) (hwf : WFApps db) :
    ∀ n, WFApps (regIter db A n)
  | 0 => hwf
  | n + 1 => wfApps_registerApplication _ A (wfApps_regIter db A hwf n)

/-- Claim C5: RegisterApplication is an idempotent upsert-or-skip: on an
existing name it succeeds without modifying the database, and after any
positive number of calls the application listing contains the name
exactly once. -/
theorem registerApplication_idempotent (db : DB) (A : String) (n : Nat)
    (hwf : WFApps db) (hn : 1 ≤ n) :
    (A ∈ db.applications → registerApplication db A = db) ∧
      (getApps (regIter db A n)).count A = 1 := by
  refine ⟨registerApplication_of_mem db A, ?_⟩
  obtain ⟨m, rfl⟩ : ∃ m, n = m + 1 := ⟨n - 1, by omega⟩
  exact count_registerApplication _ A (wfApps_regIter db A hwf m)

/-- Witness for C5: three registrations starting from an empty database
leave exactly one listing entry. -/
theorem registerApplication_idempotent_witness :
    WFApps (DB.mk [] []) ∧ 1 ≤ 3 ∧
      (("svc" ∈ (DB.mk [] []).applications →
          registerApplication (DB.mk [] []) "svc" = DB.mk [] []) ∧
        (getApps (regIter (DB.mk [] []) "svc" 3)).count "svc" = 1) :=
  ⟨by decide, by decide,
    registerApplication_idempotent (DB.mk [] []) "svc" 3 (by decide)
      (by decide)⟩

lemma pairwise_of_wf (db : DB) (A : String) (hwf : WFConfigs db) :
    db.configurations.Pairwise
      (fun r1 r2 => r1.app = A → r2.app = A → r1.name ≠ r2.name) := by
  have hp : db.configurations.Pairwise
      (fun r1 r2 => (r1.app, r1.name) ≠ (r2.app, r2.name)) :=
    List.pairwise_map.mp hwf
  refine hp.imp ?_
  intro a b hne hA hB hname
  exact hne (by rw [hA, hB, hname])

lemma getConfigs_foldl_eq (A : String) (l : List Row) :
    ∀ acc : List (String × String),
      (∀ r ∈ l, r.app = A → ∀ q ∈ acc, q.1 ≠ r.name) →
      l.Pairwise (fun r1 r2 => r1.app = A → r2.app = A →
        r1.name ≠ r2.name) →
      l.foldl
          (fun m r => if r.app == A then mapInsert m r.name r.value else m)
          acc =
        acc ++ (l.filter (fun r => r.app == A)).map
          (fun r => (r.name, r.value)) := by
  induction l with
  | nil =>
    intro acc _ _
    simp
  | cons r rest ih =>
    intro acc hacc hpw
    rw [List.pairwise_cons] at hpw
    by_cases hA : r.app = A
    · have hb : (r.app == A) = true := by simp [hA]
      have hnotin : acc.any (fun q => q.1 == r.name) = false := by
        rw [List.any_eq_false]
        intro q hq hq1
        exact hacc r (List.mem_cons_self r rest) hA q hq
          (by simpa using hq1)
      have hstep : mapInsert acc r.name r.value =
          acc ++ [(r.name, r.value)] := by
        unfold mapInsert
        rw [if_neg (by simp [hnotin])]
      have hacc2 : ∀ r2 ∈ rest, r2.app = A →
          ∀ q ∈ acc ++ [(r.name, r.value)], q.1 ≠ r2.name := by
        intro r2 hr2 hA2 q hq
        rcases List.mem_append.mp hq with hq | hq
        · exact hacc r2 (List.mem_cons_of_mem r hr2) hA2 q hq
        · have hqe : q = (r.name, r.value) := by simpa using hq
          rw [hqe]
          exact hpw.1 r2 hr2 hA hA2
      have hfil : List.filter (fun r => r.app == A) (r :: rest) =
          r :: List.filter (fun r => r.app == A) rest := by
        simp [List.filter_cons, hb]
      simp only [List.foldl_cons, hb, if_pos, hstep]
      rw [ih (acc ++ [(r.name, r.value)]) hacc2 hpw.2, hfil]
      simp
    · have hb : (r.app == A) = false := by simp [hA]
      have hfil : List.filter (fun r => r.app == A) (r :: rest) =
          List.filter (fun r => r.app == A) rest := by
        simp [List.filter_cons, hb]
      simp only [List.foldl_cons, hb, Bool.false_eq_true, if_false]
      rw [ih acc (fun r2 hr2 => hacc r2 (List.mem_cons_of_mem r hr2))
          hpw.2, hfil]

lemma getConfigs_eq_of_wf (db : DB) (A : String) (hwf : WFConfigs db) :
    getConfigs db A =
      (db.configurations.filter (fun r => r.app == A)).map
        (fun r => (r.name, r.value)) := by
  have h := getConfigs_foldl_eq A db.configurations []
    (by intro r _ _ q hq; exact absurd hq (List.not_mem_nil q))
    (pairwise_of_wf db A hwf)
  simpa [getConfigs] using h

/-- Claim C7: GetAllConfigs returns exactly the key/value pairs stored for
the application, and the empty mapping (not an error) when the
application has no entries or does not exist. -/
theorem getConfigs_returns_all (db : DB) (A : String) (hwf : WFConfigs db) :
    (∀ k v, (k, v) ∈ getConfigs db A ↔ Row.mk A k v ∈ db.configurations) ∧
      ((∀ r ∈ db.configurations, r.app ≠ A) → getConfigs db A = []) := by
  constructor
  · intro k v
    rw [getConfigs_eq_of_wf db A hwf]
    constructor
    · intro hm
      obtain ⟨r, hr, hrv⟩ := List.mem_map.mp hm
      rw [List.mem_filter] at hr
      have happ : r.app = A := by simpa using hr.2
      have hname : r.name = k := congrArg Prod.fst hrv
      have hvalue : r.value = v := congrArg Prod.snd hrv
      have hre : r = Row.mk A k v := by
        cases r
        simp_all
      rw [← hre]
      exact hr.1
    · intro hm
      rw [List.mem_map]
      refine ⟨Row.mk A k v, ?_, rfl⟩
      rw [List.mem_filter]
      exact ⟨hm, by simp⟩
  · intro hnone
    rw [getConfigs_eq_of_wf db A hwf,
      List.filter_eq_nil_iff.mpr (fun r hr => by simp [hnone r hr])]
    rfl

/-- Sample database for the GetAllConfigs witness. -/
def dbC7 : DB :=
  DB.mk ["svc", "other"]
    [Row.mk "svc" "timeout" "30", Row.mk "other" "x" "y"]

/-- Witness for C7: the stored pair of "svc" is in the mapping, and an
application with no entries gets the empty mapping. -/
theorem getConfigs_returns_all_witness :
    WFConfigs dbC7 ∧
      ((("timeout", "30") ∈ getConfigs dbC7 "svc" ↔
          Row.mk "svc" "timeout" "30" ∈ dbC7.configurations) ∧
        getConfigs dbC7 "absent" = []) :=
  ⟨by decide,
    (getConfigs_returns_all dbC7 "svc" (by decide)).1 "timeout" "30",
    (getConfigs_returns_all dbC7 "absent" (by decide)).2 (by decide)⟩

lemma countP_keyMatch_upsert (db : DB) (A K V : String) :
    (upsertConfig db A K V).configurations.countP (keyMatch A K) =
      max (db.configurations.countP (keyMatch A K)) 1 := by
  unfold upsertConfig
  cases h : db.configurations.any (keyMatch A K) with
  | true =>
    rw [if_pos rfl]
    show (db.configurations.map (upsertRow A K V)).countP (keyMatch A K) = _
    rw [List.countP_map]
    have hcomp : keyMatch A K ∘ upsertRow A K V = keyMatch A K :=
      funext fun r => keyMatch_upsertRow A K V r
    rw [hcomp]
    have hpos : 0 < db.configurations.countP (keyMatch A K) := by
      rw [List.countP_pos_iff]
      obtain ⟨r, hr, hp⟩ := List.any_eq_true.mp h
      exact ⟨r, hr, hp⟩
    omega
  | false =>
    rw [if_neg (by simp)]
    show (db.configurations ++ [Row.mk A K V]).countP (keyMatch A K) = _
    rw [List.countP_append]
    have hz : db.configurations.countP (keyMatch A K) = 0 := by
      rw [List.countP_eq_zero]
      exact List.any_eq_false.mp h
    rw [hz]
    simp [List.countP_cons, keyMatch_self]

lemma wfConfigs_upsert (db : DB) (A K V : String) (hwf : WFConfigs db) :
    WFConfigs (upsertConfig db A K V) := by
  unfold WFConfigs upsertConfig
  cases h : db.configurations.any (keyMatch A K) with
  | true =>
    rw [if_pos rfl]
    show ((db.configurations.map (upsertRow A K V)).map
      (fun r => (r.app, r.name))).Nodup
    rw [List.map_map]
    have hcomp : ((fun r => (r.app, r.name)) ∘ upsertRow A K V) =
        fun r : Row => (r.app, r.name) := by
      funext r
      simp only [Function.comp_apply]
      unfold upsertRow
      split <;> rfl
    rw [hcomp]
    exact hwf
  | false =>
    rw [if_neg (by simp)]
    show ((db.configurations ++ [Row.mk A K V]).map
      (fun r => (r.app, r.name))).Nodup
    rw [List.map_append]
    refine List.Nodup.append hwf (by simp) ?_
    rw [show (List.map (fun r : Row => (r.app, r.name)) [Row.mk A K V]) =
      [(A, K)] from rfl]
    rw [List.disjoint_singleton]
    intro hmem
    obtain ⟨r, hr, hkey⟩ := List.mem_map.mp hmem
    have hk : keyMatch A K r = true := by
      rw [keyMatch_iff]
      exact ⟨congrArg Prod.fst hkey, congrArg Prod.snd hkey⟩
    exact List.any_eq_false.mp h r hr hk

/-- Claim C1: upserting the same pair twice leaves the second value: the
resulting GetConfig returns V2, the table holds exactly one row for the
pair, and GetAllConfigs shows exactly one entry for the key. -/
theorem upsertConfig_replaces (db : DB) (A K V1 V2 : String)
    (hwf : WFConfigs db) :
    getConfig (upsertConfig (upsertConfig db A K V1) A K V2) A K = .ok V2 ∧
      (upsertConfig (upsertConfig db A K V1) A K V2).configurations.countP
          (keyMatch A K) = 1 ∧
      (getConfigs (upsertConfig (upsertConfig db A K V1) A K V2) A).countP
          (fun q => q.1 == K) = 1 := by
  have hone : (upsertConfig (upsertConfig db A K V1) A K
      V2).configurations.countP (keyMatch A K) = 1 := by
    rw [countP_keyMatch_upsert, countP_keyMatch_upsert]
    have := countP_keyMatch_le_one db A K hwf
    omega
  refine ⟨getConfig_upsertConfig_self _ A K V2, hone, ?_⟩
  have hwf2 : WFConfigs (upsertConfig (upsertConfig db A K V1) A K V2) :=
    wfConfigs_upsert _ A K V2 (wfConfigs_upsert db A K V1 hwf)
  rw [getConfigs_eq_of_wf _ A hwf2, List.countP_map, List.countP_filter]
  refine Eq.trans (List.countP_congr ?_) hone
  intro r _
  simp [keyMatch, Function.comp, and_comm]

/-- Witness for C1: two upserts of ("a", "k") into the empty database. -/
theorem upsertConfig_replaces_witness :
    WFConfigs (DB.mk [] []) ∧
      (getConfig (upsertConfig (upsertConfig (DB.mk [] []) "a" "k" "v1")
          "a" "k" "v2") "a" "k" = .ok "v2" ∧
        (upsertConfig (upsertConfig (DB.mk [] []) "a" "k" "v1") "a" "k"
            "v2").configurations.countP (keyMatch "a" "k") = 1 ∧
        (getConfigs (upsertConfig (upsertConfig (DB.mk [] []) "a" "k" "v1")
            "a" "k" "v2") "a").countP (fun q => q.1 == "k") = 1) :=
  ⟨by decide, upsertConfig_replaces (DB.mk [] []) "a" "k" "v1" "v2"
    (by decide)⟩

end Configlite
